import Mathlib

/-!
Neural Graph Memory (NGM) — verification development

Shallow embedding of `src/gengen/src/core/ngm/graph_memory.py`
(`MemoryNode`, `MemoryEdge`, `NeuralGraphMemory`) in Lean 4.

Modelling conventions:
* Python floats are modelled as `ℚ`; `datetime` values as `ℚ` seconds
  (the result of `datetime.now().timestamp()`).  One clock reading `now`
  is passed per call (the Python code reads the clock a few times inside
  one call; no claim depends on intra-call clock drift).
* Node ids: the code builds the string `f"mem_(len(self.nodes))_(timestamp)"`.
  That format is injective in the pair (count, timestamp) — the count is an
  underscore-free integer and the timestamp an underscore-free float — so we
  model an id as the pair itself (`NodeId`).
* `self.nodes` is a Python `dict`, modelled as an insertion-ordered
  association list with update-in-place / append semantics (`dictSet`).
* The FAISS flat index is a list of vectors; `search` returns squared L2
  distances sorted ascending (ties by position).  `faiss.Index.add` asserts
  that the vector length equals the configured dimension; untrained-IVF
  specifics are not modelled (the constructor's `Flat` branch is embedded).
* `networkx.DiGraph` holds at most one edge per ordered pair; `add_edge` on
  an existing pair overwrites its attributes in place.
* Python exceptions that escape a method are modelled by `PyResult.exn`
  carrying the (already mutated) object state, matching Python's in-place
  mutation semantics.
* Python `list.sort` / `sorted` are stable; with `reverse=True` equal keys
  keep their original order.  Both are modelled by `List.mergeSort` with a
  non-strict comparison, which is stable and keeps the left element first
  whenever the comparison holds.
-/

unseal List.merge List.mergeSort Rat.add Rat.mul Rat.inv Rat.sub

set_option maxRecDepth 8000

/-- Model of the Python node-id string `mem_(count)_(timestamp)`:
`seq` is `len(self.nodes)` at creation time, `ts` the clock reading. -/
structure NodeId where
  seq : ℕ
  ts : ℚ
deriving DecidableEq, Repr

/-- `MemoryNode` dataclass (graph_memory.py lines 20–39).  The `metadata`
dict is an opaque passthrough not read by any modelled operation and is
omitted.  `embedding` is a 1-D vector (`List ℚ`); a Python caller could pass
a 2-D array, rejected by `__post_init__`'s `ndim` check, but every value of
this model's embedding type is 1-dimensional. -/
structure MemoryNode where
  node_id : NodeId
  timestamp : ℚ
  content : String
  embedding : List ℚ
  modality : String
  emotional_valence : ℚ
  importance : ℚ
  access_count : ℕ
deriving DecidableEq, Repr

/-- Attribute payload of a `MemoryEdge` as stored on a graph edge
(source/target are the edge's endpoints; `metadata` omitted as above). -/
structure EdgeData where
  edge_type : String
  strength : ℚ
deriving DecidableEq, Repr

/-- `networkx.DiGraph`: insertion-ordered node list and edge list, at most
one edge per ordered pair of endpoints. -/
structure DiGraph where
  nodeIds : List NodeId
  edges : List (NodeId × NodeId × EdgeData)
deriving DecidableEq, Repr

/-- `G.add_node(v)` — appends `v` if absent (node attributes are never read
back by the modelled operations and are not stored). -/
def DiGraph.addNode (g : DiGraph) (v : NodeId) : DiGraph :=
  if v ∈ g.nodeIds then g else { g with nodeIds := g.nodeIds ++ [v] }

/-- Edge-list update backing `add_edge`: overwrite the attributes of an
existing `(u,v)` edge in place, else append a new edge. -/
def updEdges (es : List (NodeId × NodeId × EdgeData)) (u v : NodeId)
    (d : EdgeData) : List (NodeId × NodeId × EdgeData) :=
  if es.any (fun e => e.1 = u ∧ e.2.1 = v) then
    es.map (fun e => if e.1 = u ∧ e.2.1 = v then (u, v, d) else e)
  else es ++ [(u, v, d)]

/-- `G.add_edge(u, v, **attrs)` — auto-inserts missing endpoints, and
overwrites the attribute dict of an existing `(u,v)` edge. -/
def DiGraph.addEdge (g : DiGraph) (u v : NodeId) (d : EdgeData) : DiGraph :=
  { nodeIds :=
      (fun ns => if v ∈ ns then ns else ns ++ [v])
        (if u ∈ g.nodeIds then g.nodeIds else g.nodeIds ++ [u]),
    edges := updEdges g.edges u v d }

/-- `G.remove_node(v)` — removes the node and every incident edge. -/
def DiGraph.removeNode (g : DiGraph) (v : NodeId) : DiGraph :=
  { nodeIds := g.nodeIds.filter (fun x => x ≠ v),
    edges := g.edges.filter (fun e => e.1 ≠ v ∧ e.2.1 ≠ v) }

/-- `G.predecessors(v)` in in-edge insertion order. -/
def DiGraph.predecessors (g : DiGraph) (v : NodeId) : List NodeId :=
  g.edges.filterMap (fun e => if e.2.1 = v then some e.1 else none)

/-- `G.successors(v)` in out-edge insertion order. -/
def DiGraph.successors (g : DiGraph) (v : NodeId) : List NodeId :=
  g.edges.filterMap (fun e => if e.1 = v then some e.2.1 else none)

/-- The attribute payload of the edge `u → v`, if present. -/
def DiGraph.findEdge (g : DiGraph) (u v : NodeId) : Option EdgeData :=
  (g.edges.find? (fun e => e.1 = u ∧ e.2.1 = v)).map (fun e => e.2.2)

/-- Python-dict assignment `d[k] = v`: update in place if the key exists
(keeping its position), else append. -/
def dictSet (l : List (NodeId × MemoryNode)) (k : NodeId) (v : MemoryNode) :
    List (NodeId × MemoryNode) :=
  if l.any (fun p => p.1 = k) then
    l.map (fun p => if p.1 = k then (k, v) else p)
  else l ++ [(k, v)]

/-- Python-dict lookup `d.get(k)`. -/
def dictGet? (l : List (NodeId × MemoryNode)) (k : NodeId) : Option MemoryNode :=
  (l.find? (fun p => p.1 = k)).map (fun p => p.2)

/-- `NeuralGraphMemory` state: configuration, graph, node table, FAISS
index contents, and the position → node-id array. -/
structure NGM where
  embedding_dim : ℕ
  memory_capacity : ℕ
  decay_rate : ℚ
  graph : DiGraph
  nodes : List (NodeId × MemoryNode)
  index : List (List ℚ)
  index_to_node_id : List NodeId
deriving DecidableEq, Repr

/-- `NeuralGraphMemory.__init__` (Flat-index branch). -/
def initNGM (embedding_dim memory_capacity : ℕ) (decay_rate : ℚ) : NGM :=
  { embedding_dim := embedding_dim
    memory_capacity := memory_capacity
    decay_rate := decay_rate
    graph := ⟨[], []⟩
    nodes := []
    index := []
    index_to_node_id := [] }

/-- Result of a Python method call on an `NGM` object: either a return
value, or an uncaught exception; both carry the object state as left by the
call (mutations before a raise persist). -/
inductive PyResult (α : Type) where
  | ok (val : α) (state : NGM)
  | exn (msg : String) (state : NGM)
deriving Repr, DecidableEq

/-- Whether the call returned normally. -/
def PyResult.isOk {α : Type} : PyResult α → Bool
  | .ok _ _ => true
  | .exn _ _ => false

/-- The object state after the call, whether or not it raised. -/
def PyResult.stateOf {α : Type} : PyResult α → NGM
  | .ok _ s => s
  | .exn _ s => s

/-- The returned value list of a `retrieve`-style call (`[]` if it raised). -/
def PyResult.resultList : PyResult (List (MemoryNode × ℚ)) → List (MemoryNode × ℚ)
  | .ok r _ => r
  | .exn _ _ => []

/-- Descending-timestamp stable sort used by `_create_temporal_edges`
(`sorted(..., key=lambda n: n.timestamp, reverse=True)`). -/
def sortByTsDesc (l : List MemoryNode) : List MemoryNode :=
  l.mergeSort (fun a b => decide (b.timestamp ≤ a.timestamp))

/-- The loop domain of `_create_temporal_edges` (lines 264–283): nothing if
at most one node exists, else positions `1 … lookback` of the
descending-timestamp sort, with the new node itself excluded (the loop's
`recent_node.node_id != node_id` guard). -/
def temporalSources (nodes : List (NodeId × MemoryNode)) (nid : NodeId)
    (lookback : ℕ) : List MemoryNode :=
  if nodes.length ≤ 1 then []
  else ((sortByTsDesc (nodes.map Prod.snd)).drop 1 |>.take lookback).filter
    (fun r => decide (r.node_id ≠ nid))

/-- Graph effect of `_create_temporal_edges`: one strength-0.5 temporal
edge from each source to the new node. -/
def createTemporalEdges (nodes : List (NodeId × MemoryNode)) (g : DiGraph)
    (nid : NodeId) (lookback : ℕ) : DiGraph :=
  (temporalSources nodes nid lookback).foldl
    (fun g r => g.addEdge r.node_id nid ⟨"temporal", 1/2⟩) g

/-- One step of `_remove_node` (lines 309–319): guarded on store
membership; removes the node from graph and store; the index is left
untouched (stale). -/
def removeNode (s : NGM) (nid : NodeId) : NGM :=
  if s.nodes.any (fun p => p.1 = nid) then
    { s with graph := s.graph.removeNode nid,
             nodes := s.nodes.filter (fun p => p.1 ≠ nid) }
  else s

/-- Python float `base ** exp` for an integer exponent. -/
def floatPow (base : ℚ) (e : ℤ) : ℚ :=
  if 0 ≤ e then base ^ e.toNat else (base ^ (-e).toNat)⁻¹

/-- Per-node eviction score of `_prune_memories`:
`importance * decay_rate ** age_days + min(access_count * 0.1, 0.5)`,
where `age_days = (now - timestamp).days` floors toward `-∞` like Python's
`timedelta.days`. -/
def pruneScore (decay_rate now : ℚ) (n : MemoryNode) : ℚ :=
  let age : ℤ := ⌊(now - n.timestamp) / 86400⌋
  n.importance * floatPow decay_rate age + min ((n.access_count : ℚ) * (1/10)) (1/2)

/-- `_prune_memories` (lines 285–307): stable ascending sort of
`(node_id, score)` pairs, then remove the bottom `len // 10` via
`_remove_node`. -/
def pruneMemories (s : NGM) (now : ℚ) : NGM :=
  let scores := s.nodes.map (fun p => (p.1, pruneScore s.decay_rate now p.2))
  let sorted := scores.mergeSort (fun a b => decide (a.2 ≤ b.2))
  let to_remove := sorted.take (scores.length / 10)
  to_remove.foldl (fun st p => removeNode st p.1) s

/-- `NeuralGraphMemory.add_memory` (lines 105–175).  `now` is the clock
reading for this call.  Mutation order follows the source: node
construction (with `__post_init__` validation) before any mutation; then
store, graph, FAISS add (which asserts the embedding length against the
configured dimension and raises after store and graph are already
mutated), position map, causal parent edges (unknown parent ids skipped),
temporal edges, and finally capacity pruning. -/
def addMemory (s : NGM) (now : ℚ) (content : String) (embedding : List ℚ)
    (modality : String) (emotional_valence importance : ℚ)
    (parent_node_ids : List NodeId) : PyResult NodeId :=
  let nid : NodeId := ⟨s.nodes.length, now⟩
  if ¬ (0 ≤ importance ∧ importance ≤ 1) then
    .exn "Importance must be between 0 and 1" s
  else
    let node : MemoryNode :=
      ⟨nid, now, content, embedding, modality, emotional_valence, importance, 0⟩
    let s2 : NGM :=
      { s with nodes := dictSet s.nodes nid node,
               graph := s.graph.addNode nid }
    if embedding.length ≠ s.embedding_dim then
      .exn "faiss assertion d == self.d" s2
    else
      let s3 : NGM :=
        { s2 with index := s2.index ++ [embedding],
                  index_to_node_id := s2.index_to_node_id ++ [nid] }
      let g4 : DiGraph := parent_node_ids.foldl
        (fun g pid =>
          if s3.nodes.any (fun p => p.1 = pid) then
            g.addEdge pid nid ⟨"causal", 4/5⟩
          else g) s3.graph
      let s5 : NGM := { s3 with graph := createTemporalEdges s3.nodes g4 nid 5 }
      let s6 : NGM :=
        if s5.nodes.length > s5.memory_capacity then pruneMemories s5 now else s5
      .ok nid s6

/-- Squared L2 distance, as returned by `faiss.IndexFlatL2.search`. -/
def sqL2 (q v : List ℚ) : ℚ :=
  ((q.zip v).map (fun p => (p.1 - p.2) ^ 2)).sum

/-- `index.search(query, k)`: up to `k` (distance, position) pairs sorted
by ascending distance; FAISS's tie order is unspecified, modelled here as
ascending position (stable sort over the position-ordered list). -/
def searchFlat (index : List (List ℚ)) (q : List ℚ) (k : ℕ) : List (ℚ × ℕ) :=
  ((index.enum.map (fun p => (sqL2 q p.2, p.1))).mergeSort
    (fun a b => decide (a.1 ≤ b.1))).take k

/-- The candidate loop of `retrieve` (lines 205–222): for each hit,
position → node id via `index_to_node_id`, then `self.nodes[node_id]` —
which raises `KeyError` when the position is stale (the node was removed);
surviving entries are filtered by modality and minimum importance and
scored `1 / (1 + distance)`. -/
def collectCandidates (s : NGM) (mf : Option String) (mi : ℚ) :
    List (ℚ × ℕ) → Except String (List (MemoryNode × ℚ))
  | [] => .ok []
  | (dist, idx) :: rest =>
    match s.index_to_node_id.get? idx with
    | none => .error "IndexError"
    | some nid =>
      match dictGet? s.nodes nid with
      | none => .error "KeyError"
      | some node =>
        match collectCandidates s mf mi rest with
        | .error e => .error e
        | .ok tail =>
          if (match mf with | some m => decide (node.modality ≠ m) | none => false) then
            .ok tail
          else if node.importance < mi then
            .ok tail
          else
            .ok ((node, 1 / (1 + dist)) :: tail)

/-- The primary-ranking key `x[1] * 0.7 + x[0].importance * 0.3`. -/
def combinedKey (x : MemoryNode × ℚ) : ℚ :=
  x.2 * (7/10) + x.1.importance * (3/10)

/-- Steps 1–4 of `retrieve`: search `min(top_k * 3, len(self.nodes))`,
collect candidates, stable-sort descending by combined score, take
`top_k`. -/
def retrievePrimaries (s : NGM) (q : List ℚ) (top_k : ℕ) (mf : Option String)
    (mi : ℚ) : Except String (List (MemoryNode × ℚ)) :=
  match collectCandidates s mf mi
      (searchFlat s.index q (min (top_k * 3) s.nodes.length)) with
  | .error e => .error e
  | .ok cands =>
    .ok ((cands.mergeSort
      (fun a b => decide (combinedKey b ≤ combinedKey a))).take top_k)

/-- `self.nodes[nid]` over a list of ids (raises on a missing id). -/
def lookupNodes (s : NGM) : List NodeId → Except String (List MemoryNode)
  | [] => .ok []
  | nid :: rest =>
    match dictGet? s.nodes nid with
    | none => .error "KeyError"
    | some n =>
      match lookupNodes s rest with
      | .error e => .error e
      | .ok ns => .ok (n :: ns)

/-- Neighbor expansion (lines 234–245): for each primary result, its graph
predecessors then successors, each scored `primary_score * 0.6`.  No
modality or importance filter is applied here. -/
def expandNeighbors (s : NGM) : List (MemoryNode × ℚ) →
    Except String (List (MemoryNode × ℚ))
  | [] => .ok []
  | (node, score) :: rest =>
    match lookupNodes s
        (s.graph.predecessors node.node_id ++ s.graph.successors node.node_id) with
    | .error e => .error e
    | .ok ns =>
      match expandNeighbors s rest with
      | .error e => .error e
      | .ok tail => .ok (ns.map (fun n => (n, score * (3/5))) ++ tail)

/-- The `seen`-set deduplication loop (lines 249–254): keeps the first
entry for each node id. -/
def dedupGo (seen : List NodeId) :
    List (MemoryNode × ℚ) → List (MemoryNode × ℚ)
  | [] => []
  | x :: xs =>
    if x.1.node_id ∈ seen then dedupGo seen xs
    else x :: dedupGo (x.1.node_id :: seen) xs

/-- Steps 5–6 of `retrieve` with `include_neighbors`: merge primaries and
neighbors, deduplicate (first entry wins), stable-sort descending by
score, truncate to `top_k`. -/
def retrieveMerged (s : NGM) (q : List ℚ) (top_k : ℕ) (mf : Option String)
    (mi : ℚ) : Except String (List (MemoryNode × ℚ)) :=
  match retrievePrimaries s q top_k mf mi with
  | .error e => .error e
  | .ok primaries =>
    match expandNeighbors s primaries with
    | .error e => .error e
    | .ok neigh =>
      .ok (((dedupGo [] (primaries ++ neigh)).mergeSort
        (fun a b => decide (b.2 ≤ a.2))).take top_k)

/-- Final access-count bump (lines 258–260) applied to the store. -/
def bumpAccess (s : NGM) (ids : List NodeId) : NGM :=
  { s with nodes := s.nodes.map (fun p =>
      if p.1 ∈ ids then (p.1, { p.2 with access_count := p.2.access_count + 1 })
      else p) }

/-- `NeuralGraphMemory.retrieve` (lines 177–262).  Returns `[]` on an
empty store without querying the index; an uncaught `KeyError` from a
stale index position propagates as `PyResult.exn`.  Returned nodes are the
same (mutated) objects whose access counts were just incremented. -/
def retrieve (s : NGM) (q : List ℚ) (top_k : ℕ) (mf : Option String)
    (mi : ℚ) (include_neighbors : Bool) : PyResult (List (MemoryNode × ℚ)) :=
  if s.nodes.length = 0 then .ok [] s
  else
    match (if include_neighbors then retrieveMerged s q top_k mf mi
           else retrievePrimaries s q top_k mf mi) with
    | .error e => .exn e s
    | .ok res =>
      .ok (res.map (fun p =>
            ({ p.1 with access_count := p.1.access_count + 1 }, p.2)))
        (bumpAccess s (res.map (fun p => p.1.node_id)))

/-- `np.mean` of a list: `NaN` on empty input, modelled as `none`. -/
def npMean (l : List ℚ) : Option ℚ :=
  if l.length = 0 then none else some (l.sum / (l.length : ℚ))

/-- In-degree plus out-degree of a node (a self loop counts twice, as in
`networkx`). -/
def DiGraph.degreeOf (g : DiGraph) (v : NodeId) : ℕ :=
  (g.edges.filter (fun e => e.1 = v)).length +
    (g.edges.filter (fun e => e.2.1 = v)).length

/-- The record returned by `get_statistics` (lines 396–406); the
`modality_distribution` field is the per-modality count. -/
structure Statistics where
  total_nodes : ℕ
  total_edges : ℕ
  avg_importance : Option ℚ
  avg_emotional_valence : Option ℚ
  graph_density : ℚ
  avg_degree : ℚ
deriving DecidableEq, Repr

/-- `nx.density`: `0` for graphs with fewer than two nodes. -/
def DiGraph.density (g : DiGraph) : ℚ :=
  let n := g.nodeIds.length
  if n ≤ 1 then 0 else (g.edges.length : ℚ) / ((n : ℚ) * ((n : ℚ) - 1))

/-- `NeuralGraphMemory.get_statistics`: `avg_degree` is guarded by
`if len(self.graph) > 0 else 0`; `avg_importance` and
`avg_emotional_valence` are unguarded `np.mean` calls. -/
def getStatistics (s : NGM) : Statistics :=
  { total_nodes := s.nodes.length
    total_edges := s.graph.edges.length
    avg_importance := npMean (s.nodes.map (fun p => p.2.importance))
    avg_emotional_valence := npMean (s.nodes.map (fun p => p.2.emotional_valence))
    graph_density := s.graph.density
    avg_degree :=
      if s.graph.nodeIds.length > 0 then
        ((s.graph.nodeIds.map s.graph.degreeOf).sum : ℚ) / (s.graph.nodeIds.length : ℚ)
      else 0 }

/-- The value returned by a call, when it did not raise. -/
def PyResult.retVal {α : Type} : PyResult α → Option α
  | .ok v _ => some v
  | .exn _ _ => none

/-- Unpack an `Except`-valued retrieval stage (`[]` on error). -/
def exGet (r : Except String (List (MemoryNode × ℚ))) : List (MemoryNode × ℚ) :=
  match r with
  | .ok l => l
  | .error _ => []

/-! ## Concrete scenario states used by the claim theorems -/

/-- Two inserts (embeddings `[0]` and `[10]`, timestamps 1 and 2) into a
fresh default-shaped instance. -/
def twoNodeState : NGM :=
  (addMemory ((addMemory (initNGM 1 100000 (19/20)) 1 "a" [0] "text" 0 (1/2) []).stateOf)
    2 "b" [10] "text" 0 (1/2) []).stateOf

/-- `twoNodeState` after explicitly deleting the first node: its index
position 0 is now stale. -/
def staleState : NGM := removeNode twoNodeState ⟨0, 1⟩

/-- Run a batch of inserts, recording the final state and whether every
call returned normally. -/
def insertRun (s : NGM) (calls : List (ℚ × List ℚ × ℚ)) : NGM × Bool :=
  calls.foldl (fun acc call =>
    match addMemory acc.1 call.1 "x" call.2.1 "text" 0 call.2.2 [] with
    | .ok _ st => (st, acc.2)
    | .exn _ st => (st, false)) (s, true)

/-- Capacity 5, six valid inserts (timestamps 1–6). -/
def sixIntoFive : NGM × Bool :=
  insertRun (initNGM 1 5 1)
    [(1, [0], 1/2), (2, [1], 1/2), (3, [2], 1/2),
     (4, [3], 1/2), (5, [4], 1/2), (6, [5], 1/2)]

/-- Capacity 10, decay 1: eleven inserts with ascending importance
`0.0, 0.1, …, 1.0`, timestamps 1–11, no retrievals (zero accesses). -/
def elevenIntoTen : NGM × Bool :=
  insertRun (initNGM 1 10 1)
    [(1, [0], 0), (2, [1], 1/10), (3, [2], 2/10), (4, [3], 3/10),
     (5, [4], 4/10), (6, [5], 5/10), (7, [6], 6/10), (8, [7], 7/10),
     (9, [8], 8/10), (10, [9], 9/10), (11, [10], 1)]

/-- First insert of the id-reuse scenario (timestamp 1). -/
def reuseFirst : PyResult NodeId :=
  addMemory (initNGM 1 100 1) 1 "a" [0] "text" 0 (1/2) []

/-- Second insert after deleting the first node, with an identical clock
reading (timestamp 1 again). -/
def reuseSecond : PyResult NodeId :=
  addMemory (removeNode reuseFirst.stateOf ⟨0, 1⟩) 1 "b" [0] "text" 0 (1/2) []

/-- A low-importance node "L" (importance 0.1, embedding `[10]`) inserted
before a high-importance node "H" (importance 1, embedding `[0]`); the
insert machinery creates the temporal edge L → H. -/
def lowHighState : NGM :=
  (addMemory ((addMemory (initNGM 1 100 1) 1 "L" [10] "text" 0 (1/10) []).stateOf)
    2 "H" [0] "text" 0 1 []).stateOf

/-- Node "X" (embedding `[2]`, similarity 0.2 for query `[0]`) inserted
before node "Y" (embedding `[0]`, similarity 1); the temporal edge X → Y
makes each a graph neighbor of the other. -/
def xyState : NGM :=
  (addMemory ((addMemory (initNGM 1 100 1) 1 "X" [2] "text" 0 (1/2) []).stateOf)
    2 "Y" [0] "text" 0 (1/2) []).stateOf

/-- Primary result set of the X/Y retrieval. -/
def xyPrimaries : List (MemoryNode × ℚ) := exGet (retrievePrimaries xyState [0] 2 none 0)

/-- Neighbor entries of the X/Y retrieval. -/
def xyNeighbors : List (MemoryNode × ℚ) := exGet (expandNeighbors xyState xyPrimaries)

/-- One node "p" (timestamp 1) in an otherwise fresh instance. -/
def oneParentState : NGM :=
  (addMemory (initNGM 1 100 1) 1 "p" [0] "text" 0 (1/2) []).stateOf

/-- Insert of a child with `parent_node_ids = [p]` where `p` is the (only,
most recent) existing node. -/
def childOfParent : PyResult NodeId :=
  addMemory oneParentState 2 "c" [0] "text" 0 (1/2) [⟨0, 1⟩]

/-! ## C1 -/

/-- C1: the claim says every stale index position returned by the vector
search is dropped (liveness check), so the store lookup never fails and no
removed node appears in a result.  The code has no such check: after
deleting the node at index position 0, that position is still returned by
the search (third conjunct) and `retrieve` raises `KeyError` on the store
lookup instead of dropping it — contradicting the code's own comment
"Stale indices are filtered during retrieval" (graph_memory.py line 319). -/
theorem retrieve_stale_position_raises_keyerror :
    retrieve staleState [0] 1 none 0 true = PyResult.exn "KeyError" staleState ∧
    dictGet? staleState.nodes ⟨0, 1⟩ = none ∧
    (searchFlat staleState.index [0] (min (1 * 3) staleState.nodes.length)).map Prod.snd = [0] := by
  decide

/-! ## C2 -/

/-- C2 counterexample: with capacity 5, six valid inserts all succeed and
leave six live nodes — the live count exceeds the configured capacity,
because eviction removes `6 // 10 = 0` nodes. -/
theorem capacity_exceeded_with_capacity_five :
    sixIntoFive.2 = true ∧
    sixIntoFive.1.memory_capacity = 5 ∧
    sixIntoFive.1.nodes.length = 6 := by
  decide

/-! ## C8 -/

/-- C8: capacity 10, decay 1.0, eleven inserts with ascending importance
0.0 … 1.0 and zero accesses; every insert succeeds, the eviction triggered
by the eleventh removes exactly `11 // 10 = 1` node — the importance-0.0
node (its id `⟨0, 1⟩` is gone) — leaving the ten nodes of importance
0.1 … 1.0. -/
theorem eleven_insert_eviction_scenario :
    elevenIntoTen.2 = true ∧
    elevenIntoTen.1.nodes.length = 10 ∧
    elevenIntoTen.1.nodes.map (fun p => p.2.importance) =
      [1/10, 2/10, 3/10, 4/10, 5/10, 6/10, 7/10, 8/10, 9/10, 1] ∧
    dictGet? elevenIntoTen.1.nodes ⟨0, 1⟩ = none := by
  decide

/-! ## C3 -/

/-- C3 counterexample: an insert with emotional valence 2 — outside
`[-1, 1]` — succeeds.  The claim says the valence range is checked and such
an insert fails with a validation error; `MemoryNode.__post_init__` checks
only the embedding's 1-D shape and the importance range. -/
theorem valence_out_of_range_insert_succeeds :
    (addMemory (initNGM 1 100 1) 1 "x" [0] "text" 2 (1/2) []).isOk = true ∧
    ¬ ((-1 : ℚ) ≤ 2 ∧ (2 : ℚ) ≤ 1) := by
  decide

/-! ## C4 -/

/-- C4 counterexample: two distinct insert calls — the second made after
the first node was deleted, under an identical clock reading — both return
the id `⟨0, 1⟩` (the string `mem_0_1`): the id is reused, because the id is
built from `len(self.nodes)` (which fell back to 0 after the deletion) and
the timestamp. -/
theorem node_id_reused_after_deletion :
    reuseFirst.retVal = some ⟨0, 1⟩ ∧ reuseSecond.retVal = some ⟨0, 1⟩ := by
  decide

/-! ## C5 -/

/-- C5 counterexample: with `min_importance = 0.9` and
`include_neighbors = true`, retrieval on `lowHighState` returns node "L"
of importance 0.1 < 0.9: "L" fails the importance filter as a vector-search
candidate but re-enters as a graph neighbor of the primary result "H". -/
theorem min_importance_bypassed_by_neighbor :
    (retrieve lowHighState [0] 2 none (9/10) true).resultList.map
      (fun p => (p.1.content, p.1.importance, p.2)) =
      [("H", 1, 1), ("L", 1/10, 3/5)] ∧
    ((1 : ℚ)/10 < 9/10) := by
  decide

/-! ## C6 -/

/-- C6 counterexample: in the X/Y retrieval, node "X" occurs in the primary
set with score 0.2 and again in the neighbor set with score 0.6 (= 0.6 × Y's
similarity 1), but the merged, deduplicated result assigns "X" the score
0.2 of its first occurrence, not the maximum 0.6. -/
theorem dedup_keeps_first_score_not_max :
    (exGet (retrieveMerged xyState [0] 2 none 0)).map (fun p => (p.1.content, p.2)) =
      [("Y", 1), ("X", 1/5)] ∧
    ("X", (3 : ℚ)/5) ∈ (xyPrimaries ++ xyNeighbors).map (fun p => (p.1.content, p.2)) ∧
    ((1 : ℚ)/5 ≠ 3/5) := by
  decide

/-! ## C9 -/

/-- C9 counterexample: a child inserted with a known parent id `p` (in the
store, and also the most recent node) ends with the edge p → child carrying
`edge_type = "temporal"`, `strength = 0.5` — not a causal edge of strength
0.8: the causal edge is created but then overwritten by the temporal-edge
step, since the graph holds one edge per ordered node pair. -/
theorem causal_edge_overwritten_by_temporal :
    childOfParent.isOk = true ∧
    (dictGet? oneParentState.nodes ⟨0, 1⟩).isSome = true ∧
    childOfParent.stateOf.graph.findEdge ⟨0, 1⟩ ⟨1, 2⟩ = some ⟨"temporal", 1/2⟩ ∧
    (EdgeData.mk "temporal" (1/2) ≠ EdgeData.mk "causal" (4/5)) := by
  decide

/-! ## C10 -/

/-- C10: `get_statistics` guards `avg_degree` (0 on an empty graph), but
`avg_importance` and `avg_emotional_valence` are unguarded `np.mean` calls —
the empty mean (NaN, modelled `none`) on an empty store — and are
well-defined numbers exactly when at least one node exists. -/
theorem statistics_mean_guards (s : NGM) :
    (s.graph.nodeIds = [] → (getStatistics s).avg_degree = 0) ∧
    (s.nodes = [] → (getStatistics s).avg_importance = none ∧
      (getStatistics s).avg_emotional_valence = none) ∧
    (s.nodes ≠ [] → ((getStatistics s).avg_importance).isSome = true ∧
      ((getStatistics s).avg_emotional_valence).isSome = true) := by
  refine ⟨fun h => ?_, fun h => ?_, fun h => ?_⟩
  · simp [getStatistics, h]
  · simp [getStatistics, npMean, h]
  · have hlen : s.nodes.length ≠ 0 := fun hc => h (List.length_eq_zero.mp hc)
    constructor <;> simp [getStatistics, npMean, hlen]

/-- Witness for `statistics_mean_guards` at concrete inputs: the fresh
instance (empty store) has `avg_degree = 0` and undefined means; the
one-node state has defined means. -/
theorem statistics_mean_guards_witness :
    (getStatistics (initNGM 1 100 1)).avg_degree = 0 ∧
    (getStatistics (initNGM 1 100 1)).avg_importance = none ∧
    ((getStatistics oneParentState).avg_importance).isSome = true := by
  refine ⟨(statistics_mean_guards (initNGM 1 100 1)).1 rfl,
    ((statistics_mean_guards (initNGM 1 100 1)).2.1 rfl).1,
    ((statistics_mean_guards oneParentState).2.2 (by decide)).1⟩

/-- Helper: a successful insert returns the id built from the pre-call
store size and the call's clock reading. -/
theorem addMemory_ok_id (s : NGM) (now : ℚ) (c : String) (e : List ℚ)
    (m : String) (v imp : ℚ) (P : List NodeId) (nid : NodeId) (st : NGM)
    (h : addMemory s now c e m v imp P = .ok nid st) :
    nid = ⟨s.nodes.length, now⟩ := by
  simp only [addMemory] at h
  split at h
  · exact PyResult.noConfusion h
  · split at h
    · exact PyResult.noConfusion h
    · injection h with h1 _
      exact h1.symm

/-- C3 amended: the only pre-mutation validation is the importance range
(plus the 1-D embedding shape): an importance-invalid insert raises with
the state exactly unchanged; a dimension-mismatched insert with valid
importance raises at the FAISS add step with the store and graph already
mutated and the index and position map unchanged.  (The valence range is
never checked: see the counterexample.) -/
theorem importance_validation_precedes_mutation
    (s : NGM) (now : ℚ) (c : String) (e : List ℚ) (m : String) (v imp : ℚ)
    (P : List NodeId) :
    (¬ (0 ≤ imp ∧ imp ≤ 1) →
      addMemory s now c e m v imp P = .exn "Importance must be between 0 and 1" s) ∧
    ((0 ≤ imp ∧ imp ≤ 1) → e.length ≠ s.embedding_dim →
      addMemory s now c e m v imp P =
        .exn "faiss assertion d == self.d"
          { s with
              nodes := dictSet s.nodes ⟨s.nodes.length, now⟩
                ⟨⟨s.nodes.length, now⟩, now, c, e, m, v, imp, 0⟩,
              graph := s.graph.addNode ⟨s.nodes.length, now⟩ }) := by
  constructor
  · intro h
    simp only [addMemory, if_pos h]
  · intro h hd
    simp only [addMemory, if_neg (not_not_intro h), if_pos hd]

/-- Witness for `importance_validation_precedes_mutation`: an insert with
importance 1.5 on a fresh instance raises and leaves the instance exactly
in its initial state. -/
theorem importance_validation_witness :
    addMemory (initNGM 1 100 1) 1 "x" [0] "text" 0 (3/2) [] =
      .exn "Importance must be between 0 and 1" (initNGM 1 100 1) :=
  (importance_validation_precedes_mutation (initNGM 1 100 1) 1 "x" [0] "text" 0
    (3/2) []).1 (by decide)

/-- C4 amended: two insert calls return distinct ids whenever their clock
readings differ or the live node counts at the two calls differ (the id is
the pair of those two values); after a deletion restores an earlier count,
an identical clock reading reuses the id (see the counterexample). -/
theorem node_ids_distinct_unless_same_clock_and_count
    (s1 s2 : NGM) (t1 t2 : ℚ)
    (c1 c2 : String) (e1 e2 : List ℚ) (m1 m2 : String) (v1 v2 i1 i2 : ℚ)
    (p1 p2 : List NodeId) (id1 id2 : NodeId) (st1 st2 : NGM)
    (hdiff : t1 ≠ t2 ∨ s1.nodes.length ≠ s2.nodes.length)
    (h1 : addMemory s1 t1 c1 e1 m1 v1 i1 p1 = .ok id1 st1)
    (h2 : addMemory s2 t2 c2 e2 m2 v2 i2 p2 = .ok id2 st2) :
    id1 ≠ id2 := by
  rw [addMemory_ok_id s1 t1 c1 e1 m1 v1 i1 p1 id1 st1 h1,
    addMemory_ok_id s2 t2 c2 e2 m2 v2 i2 p2 id2 st2 h2]
  intro hc
  injection hc with hs ht
  rcases hdiff with h | h
  · exact h ht
  · exact h hs

/-- Witness for `node_ids_distinct_unless_same_clock_and_count`: two
inserts on fresh instances with clock readings 1 and 2 return the distinct
ids `⟨0, 1⟩` and `⟨0, 2⟩`. -/
theorem node_ids_distinct_witness : (⟨0, 1⟩ : NodeId) ≠ ⟨0, 2⟩ :=
  node_ids_distinct_unless_same_clock_and_count
    (initNGM 1 100 1) (initNGM 1 100 1) 1 2 "a" "b" [0] [0] "text" "text"
    0 0 (1/2) (1/2) [] [] ⟨0, 1⟩ ⟨0, 2⟩
    ((addMemory (initNGM 1 100 1) 1 "a" [0] "text" 0 (1/2) []).stateOf)
    ((addMemory (initNGM 1 100 1) 2 "b" [0] "text" 0 (1/2) []).stateOf)
    (Or.inl (by decide)) (by decide) (by decide)

/-- Helper: a Python-dict assignment grows the table by at most one
entry. -/
theorem dictSet_length_le (l : List (NodeId × MemoryNode)) (k : NodeId)
    (v : MemoryNode) : (dictSet l k v).length ≤ l.length + 1 := by
  unfold dictSet
  split
  · rw [List.length_map]
    exact Nat.le_succ _
  · rw [List.length_append]
    exact le_refl _

/-- Helper: removing the entries with key `k` from a table that contains
one strictly shrinks it. -/
theorem filter_ne_length_lt (l : List (NodeId × MemoryNode)) (k : NodeId)
    (h : l.any (fun p => p.1 = k) = true) :
    (l.filter (fun p => p.1 ≠ k)).length < l.length := by
  induction l with
  | nil => simp at h
  | cons x xs ih =>
    by_cases hx : x.1 = k
    · have hped : (decide (x.1 ≠ k)) = false := by simp [hx]
      rw [List.filter_cons, hped]
      simp only [Bool.false_eq_true, if_false, List.length_cons]
      exact Nat.lt_succ_of_le (List.length_filter_le _ _)
    · have hany : xs.any (fun p => p.1 = k) = true := by
        simp only [List.any_cons, Bool.or_eq_true] at h
        rcases h with h | h
        · exact absurd (of_decide_eq_true h) hx
        · exact h
      have hped : (decide (x.1 ≠ k)) = true := by simp [hx]
      rw [List.filter_cons, hped]
      simp only [if_true, List.length_cons]
      exact Nat.succ_lt_succ (ih hany)

/-- Helper: `_remove_node` never grows the store. -/
theorem removeNode_length_le (st : NGM) (k : NodeId) :
    (removeNode st k).nodes.length ≤ st.nodes.length := by
  unfold removeNode
  split
  · exact List.length_filter_le _ _
  · exact le_refl _

/-- Helper: `_remove_node` of a present key strictly shrinks the store. -/
theorem removeNode_length_lt (st : NGM) (k : NodeId)
    (h : st.nodes.any (fun p => p.1 = k) = true) :
    (removeNode st k).nodes.length < st.nodes.length := by
  unfold removeNode
  rw [if_pos h]
  exact filter_ne_length_lt st.nodes k h

/-- Helper: a batch of `_remove_node` calls never grows the store. -/
theorem foldl_removeNode_length_le (ids : List (NodeId × ℚ)) (st : NGM) :
    ((ids.foldl (fun st p => removeNode st p.1) st)).nodes.length ≤ st.nodes.length := by
  induction ids generalizing st with
  | nil => exact le_refl _
  | cons x xs ih => exact le_trans (ih _) (removeNode_length_le st x.1)

/-- Helper: on a store of at least ten nodes, `_prune_memories` removes at
least one node (the bottom `len // 10 ≥ 1` entries all name present keys). -/
theorem pruneMemories_length_lt (s : NGM) (now : ℚ)
    (h10 : 10 ≤ s.nodes.length) :
    (pruneMemories s now).nodes.length < s.nodes.length := by
  simp only [pruneMemories]
  have hpos : 0 < s.nodes.length := lt_of_lt_of_le (by norm_num) h10
  have hk : 1 ≤ (s.nodes.map (fun p => (p.1, pruneScore s.decay_rate now p.2))).length / 10 := by
    rw [List.length_map]
    exact (Nat.one_le_div_iff (by norm_num)).mpr h10
  have hne :
      (((s.nodes.map (fun p => (p.1, pruneScore s.decay_rate now p.2))).mergeSort
        (fun a b => decide (a.2 ≤ b.2))).take
        ((s.nodes.map (fun p => (p.1, pruneScore s.decay_rate now p.2))).length / 10)) ≠ [] := by
    rw [← List.length_pos, List.length_take, List.length_mergeSort, List.length_map]
    rw [List.length_map] at hk
    exact lt_min (lt_of_lt_of_le one_pos hk) hpos
  obtain ⟨hd, tl, heq⟩ := List.exists_cons_of_ne_nil hne
  rw [heq, List.foldl_cons]
  have hmem : hd ∈ s.nodes.map (fun p => (p.1, pruneScore s.decay_rate now p.2)) := by
    have hin : hd ∈ (((s.nodes.map (fun p => (p.1, pruneScore s.decay_rate now p.2))).mergeSort
        (fun a b => decide (a.2 ≤ b.2))).take
        ((s.nodes.map (fun p => (p.1, pruneScore s.decay_rate now p.2))).length / 10)) := by
      rw [heq]
      exact List.mem_cons_self _ _
    exact List.mem_mergeSort.mp (List.mem_of_mem_take hin)
  obtain ⟨p, hp, hpe⟩ := List.mem_map.mp hmem
  have hany : s.nodes.any (fun pp => pp.1 = hd.1) = true := by
    refine List.any_eq_true.mpr ⟨p, hp, ?_⟩
    rw [← hpe]
    exact decide_eq_true rfl
  calc (tl.foldl (fun st p => removeNode st p.1) (removeNode s hd.1)).nodes.length
      ≤ (removeNode s hd.1).nodes.length := foldl_removeNode_length_le tl _
    _ < s.nodes.length := removeNode_length_lt s hd.1 hany

/-- C2 amended: for a configured capacity of at least 9, a valid insert on
a within-capacity store leaves the live node count within capacity (for
smaller capacities the bottom-10% rule removes zero nodes and the
invariant fails — see the counterexample). -/
theorem capacity_invariant_with_capacity_at_least_nine
    (s : NGM) (now : ℚ) (c : String) (e : List ℚ) (m : String) (v imp : ℚ)
    (P : List NodeId)
    (hcap : 9 ≤ s.memory_capacity)
    (hlen : s.nodes.length ≤ s.memory_capacity)
    (himp : 0 ≤ imp ∧ imp ≤ 1)
    (hdim : e.length = s.embedding_dim) :
    ((addMemory s now c e m v imp P).stateOf).nodes.length ≤ s.memory_capacity := by
  have hNle := dictSet_length_le s.nodes ⟨s.nodes.length, now⟩
    ⟨⟨s.nodes.length, now⟩, now, c, e, m, v, imp, 0⟩
  simp only [addMemory, if_neg (not_not_intro himp), if_neg (not_not_intro hdim),
    PyResult.stateOf]
  split
  · next hgt =>
    refine Nat.lt_succ_iff.mp (lt_of_lt_of_le (pruneMemories_length_lt _ now ?_) ?_)
    · show 10 ≤ (dictSet s.nodes ⟨s.nodes.length, now⟩
        ⟨⟨s.nodes.length, now⟩, now, c, e, m, v, imp, 0⟩).length
      omega
    · show (dictSet s.nodes ⟨s.nodes.length, now⟩
        ⟨⟨s.nodes.length, now⟩, now, c, e, m, v, imp, 0⟩).length ≤ s.memory_capacity + 1
      omega
  · next hgt =>
    show (dictSet s.nodes ⟨s.nodes.length, now⟩
      ⟨⟨s.nodes.length, now⟩, now, c, e, m, v, imp, 0⟩).length ≤ s.memory_capacity
    omega

/-- Witness for `capacity_invariant_with_capacity_at_least_nine`: a first
insert on a fresh capacity-9 instance leaves at most 9 live nodes. -/
theorem capacity_invariant_witness :
    ((addMemory (initNGM 1 9 1) 1 "a" [0] "text" 0 (1/2) []).stateOf).nodes.length ≤
      (initNGM 1 9 1).memory_capacity :=
  capacity_invariant_with_capacity_at_least_nine (initNGM 1 9 1) 1 "a" [0] "text"
    0 (1/2) [] (by decide) (by decide) (by decide) (by decide)

/-- Helper: every candidate surviving the filter loop of `retrieve` meets
the minimum-importance threshold. -/
theorem collectCandidates_importance (s : NGM) (mf : Option String) (mi : ℚ)
    (hits : List (ℚ × ℕ)) (cands : List (MemoryNode × ℚ))
    (h : collectCandidates s mf mi hits = .ok cands) :
    ∀ x ∈ cands, mi ≤ x.1.importance := by
  induction hits generalizing cands with
  | nil =>
    simp only [collectCandidates] at h
    injection h with h
    subst h
    intro x hx
    exact absurd hx (List.not_mem_nil x)
  | cons hit rest ih =>
    rcases hit with ⟨dist, idx⟩
    rw [collectCandidates] at h
    split at h
    · exact Except.noConfusion h
    · split at h
      · exact Except.noConfusion h
      · split at h
        · exact Except.noConfusion h
        · rename_i tail hrec
          have htail := ih tail hrec
          split at h
          · injection h with h
            subst h
            exact htail
          · split at h
            · injection h with h
              subst h
              exact htail
            · rename_i himp
              injection h with h
              subst h
              intro x hx
              rcases List.mem_cons.mp hx with rfl | hx2
              · exact le_of_not_lt himp
              · exact htail x hx2

/-- C5 amended: without neighbor expansion, every node returned by
`retrieve` meets the minimum-importance threshold (the filter applies to
all vector-search candidates); with neighbor expansion the threshold can be
bypassed — see the counterexample. -/
theorem retrieve_without_neighbors_respects_min_importance
    (s : NGM) (q : List ℚ) (top_k : ℕ) (mf : Option String) (mi : ℚ)
    (x : MemoryNode × ℚ)
    (hx : x ∈ (retrieve s q top_k mf mi false).resultList) :
    mi ≤ x.1.importance := by
  rw [retrieve] at hx
  by_cases h0 : s.nodes.length = 0
  · rw [if_pos h0] at hx
    exact absurd hx (List.not_mem_nil x)
  · rw [if_neg h0] at hx
    simp only [Bool.false_eq_true, if_false] at hx
    cases hp : retrievePrimaries s q top_k mf mi with
    | error e =>
      rw [hp] at hx
      exact absurd hx (List.not_mem_nil x)
    | ok res =>
      rw [hp] at hx
      simp only [PyResult.resultList] at hx
      obtain ⟨y, hy, hyx⟩ := List.mem_map.mp hx
      have himp : x.1.importance = y.1.importance := by
        rw [← hyx]
      rw [himp]
      rw [retrievePrimaries] at hp
      cases hc : collectCandidates s mf mi
          (searchFlat s.index q (min (top_k * 3) s.nodes.length)) with
      | error e => rw [hc] at hp; exact Except.noConfusion hp
      | ok cands =>
        rw [hc] at hp
        injection hp with hp
        subst hp
        have hyc : y ∈ cands :=
          List.mem_mergeSort.mp (List.mem_of_mem_take hy)
        exact collectCandidates_importance s mf mi _ cands hc y hyc

/-- Witness for `retrieve_without_neighbors_respects_min_importance`: the
single result of a threshold-0.25 retrieval on the one-node state has
importance at least 0.25. -/
theorem retrieve_min_importance_witness :
    (1 : ℚ)/4 ≤ ((⟨⟨0, 1⟩, 1, "p", [0], "text", 0, 1/2, 1⟩, 1) :
      MemoryNode × ℚ).1.importance :=
  retrieve_without_neighbors_respects_min_importance oneParentState [0] 1 none
    (1/4) (⟨⟨0, 1⟩, 1, "p", [0], "text", 0, 1/2, 1⟩, 1) (by decide)

/-- Helper: every entry surviving the `seen`-set deduplication is the first
entry of the input list bearing its node id (and its id was not already
seen). -/
theorem dedupGo_first_occurrence (l : List (MemoryNode × ℚ)) (seen : List NodeId)
    (x : MemoryNode × ℚ) (hx : x ∈ dedupGo seen l) :
    x.1.node_id ∉ seen ∧
      l.find? (fun z => decide (z.1.node_id = x.1.node_id)) = some x := by
  induction l generalizing seen with
  | nil =>
    rw [dedupGo] at hx
    exact absurd hx (List.not_mem_nil x)
  | cons y ys ih =>
    rw [dedupGo] at hx
    by_cases hy : y.1.node_id ∈ seen
    · rw [if_pos hy] at hx
      obtain ⟨hns, hfd⟩ := ih seen hx
      have hne : y.1.node_id ≠ x.1.node_id := fun he => hns (he ▸ hy)
      refine ⟨hns, ?_⟩
      rw [List.find?_cons_of_neg _ (by simpa using hne)]
      exact hfd
    · rw [if_neg hy] at hx
      rcases List.mem_cons.mp hx with rfl | hx2
      · exact ⟨hy, List.find?_cons_of_pos _ (by simp)⟩
      · obtain ⟨hns, hfd⟩ := ih _ hx2
        have hxy : x.1.node_id ≠ y.1.node_id := fun he => hns (by
          rw [he]
          exact List.mem_cons_self _ _)
        refine ⟨fun hc => hns (List.mem_cons_of_mem _ hc), ?_⟩
        rw [List.find?_cons_of_neg _ (by simpa using hxy.symm)]
        exact hfd

/-- C6 amended: with neighbor expansion, each entry of the final result
carries the id and score of the *first* occurrence of its node id in the
concatenated primary-then-neighbor list (a primary entry beats any
neighbor entry; among neighbor entries the earlier-ranked primary's
contribution wins) — not the maximum score seen. -/
theorem merged_result_score_is_first_occurrence
    (s : NGM) (q : List ℚ) (top_k : ℕ) (mf : Option String) (mi : ℚ)
    (prim neigh : List (MemoryNode × ℚ))
    (hp : retrievePrimaries s q top_k mf mi = Except.ok prim)
    (hn : expandNeighbors s prim = Except.ok neigh)
    (x : MemoryNode × ℚ)
    (hx : x ∈ (retrieve s q top_k mf mi true).resultList) :
    ∃ y, (prim ++ neigh).find? (fun z => decide (z.1.node_id = x.1.node_id)) = some y ∧
      y.1.node_id = x.1.node_id ∧ y.2 = x.2 := by
  rw [retrieve] at hx
  by_cases h0 : s.nodes.length = 0
  · rw [if_pos h0] at hx
    exact absurd hx (List.not_mem_nil x)
  · rw [if_neg h0] at hx
    simp only [eq_self_iff_true, if_true] at hx
    cases hm : retrieveMerged s q top_k mf mi with
    | error e =>
      rw [hm] at hx
      exact absurd hx (List.not_mem_nil x)
    | ok res =>
      rw [hm] at hx
      simp only [PyResult.resultList] at hx
      obtain ⟨y', hy', hbump⟩ := List.mem_map.mp hx
      simp only [retrieveMerged, hp, hn] at hm
      injection hm with hm
      subst hm
      have hyd : y' ∈ dedupGo [] (prim ++ neigh) :=
        List.mem_mergeSort.mp (List.mem_of_mem_take hy')
      obtain ⟨-, hfind⟩ := dedupGo_first_occurrence _ [] y' hyd
      have hid : x.1.node_id = y'.1.node_id := by rw [← hbump]
      have hsc : x.2 = y'.2 := by rw [← hbump]
      refine ⟨y', ?_, hid.symm, hsc.symm⟩
      rw [hid]
      exact hfind

/-- Witness for `merged_result_score_is_first_occurrence`: in the X/Y
retrieval the returned "X" entry (score 0.2) is the first occurrence of the
id of "X" in the primary-then-neighbor list. -/
theorem merged_result_first_occurrence_witness :
    ∃ y, (xyPrimaries ++ xyNeighbors).find?
      (fun z => decide (z.1.node_id =
        ((⟨⟨0, 1⟩, 1, "X", [2], "text", 0, 1/2, 1⟩, 1/5) :
          MemoryNode × ℚ).1.node_id)) = some y ∧
      y.1.node_id = ((⟨⟨0, 1⟩, 1, "X", [2], "text", 0, 1/2, 1⟩, 1/5) :
        MemoryNode × ℚ).1.node_id ∧
      y.2 = ((⟨⟨0, 1⟩, 1, "X", [2], "text", 0, 1/2, 1⟩, 1/5) : MemoryNode × ℚ).2 :=
  merged_result_score_is_first_occurrence xyState [0] 2 none 0
    xyPrimaries xyNeighbors rfl rfl
    (⟨⟨0, 1⟩, 1, "X", [2], "text", 0, 1/2, 1⟩, 1/5) (by decide)

/-- Helper: after overwriting the `(u,v)` edge in a list that contains one,
the lookup for `(u,v)` returns the new payload. -/
theorem find?_map_overwrite (es : List (NodeId × NodeId × EdgeData))
    (u v : NodeId) (d : EdgeData)
    (hany : es.any (fun e => decide (e.1 = u ∧ e.2.1 = v)) = true) :
    (es.map (fun e => if e.1 = u ∧ e.2.1 = v then (u, v, d) else e)).find?
      (fun e => decide (e.1 = u ∧ e.2.1 = v)) = some (u, v, d) := by
  induction es with
  | nil => simp at hany
  | cons e es ih =>
    rw [List.map_cons]
    by_cases he : e.1 = u ∧ e.2.1 = v
    · rw [if_pos he]
      exact List.find?_cons_of_pos _ (by simp)
    · rw [if_neg he]
      rw [List.find?_cons_of_neg _ (by simpa using he)]
      apply ih
      simp only [List.any_cons, Bool.or_eq_true] at hany
      rcases hany with h | h
      · exact absurd (of_decide_eq_true h) he
      · exact h

/-- Helper: overwriting the `(u,v)` edge leaves the lookup of any other
pair unchanged. -/
theorem find?_map_overwrite_other (es : List (NodeId × NodeId × EdgeData))
    (u v : NodeId) (d : EdgeData) (a b : NodeId) (hne : ¬ (a = u ∧ b = v)) :
    (es.map (fun e => if e.1 = u ∧ e.2.1 = v then (u, v, d) else e)).find?
      (fun e => decide (e.1 = a ∧ e.2.1 = b)) =
    es.find? (fun e => decide (e.1 = a ∧ e.2.1 = b)) := by
  induction es with
  | nil => rfl
  | cons e es ih =>
    rw [List.map_cons]
    by_cases he : e.1 = u ∧ e.2.1 = v
    · rw [if_pos he]
      rw [List.find?_cons_of_neg _ (by
        intro hc
        obtain hc' := of_decide_eq_true hc
        exact hne ⟨hc'.1.symm, hc'.2.symm⟩)]
      rw [List.find?_cons_of_neg _ (by
        intro hc
        obtain hc' := of_decide_eq_true hc
        exact hne ⟨hc'.1.symm.trans he.1, hc'.2.symm.trans he.2⟩)]
      exact ih
    · rw [if_neg he]
      by_cases hpe : e.1 = a ∧ e.2.1 = b
      · rw [List.find?_cons_of_pos _ (by simpa using hpe),
          List.find?_cons_of_pos _ (by simpa using hpe)]
      · rw [List.find?_cons_of_neg _ (by simpa using hpe),
          List.find?_cons_of_neg _ (by simpa using hpe)]
        exact ih

/-- Helper: `add_edge` makes the `(u,v)` lookup return the new payload. -/
theorem findEdge_addEdge_self (g : DiGraph) (u v : NodeId) (d : EdgeData) :
    (g.addEdge u v d).findEdge u v = some d := by
  show ((updEdges g.edges u v d).find? (fun e => decide (e.1 = u ∧ e.2.1 = v))).map
    (fun e => e.2.2) = some d
  unfold updEdges
  split
  · next hany =>
    rw [find?_map_overwrite g.edges u v d hany]
    rfl
  · next hany =>
    have hnone : g.edges.find? (fun e => decide (e.1 = u ∧ e.2.1 = v)) = none := by
      rw [List.find?_eq_none]
      intro x hx hpx
      exact hany (List.any_eq_true.mpr ⟨x, hx, hpx⟩)
    rw [List.find?_append, hnone, Option.none_or,
      List.find?_cons_of_pos _ (by simp)]
    rfl

/-- Helper: `add_edge` on `(u,v)` leaves every other pair's lookup
unchanged. -/
theorem findEdge_addEdge_of_ne (g : DiGraph) (u v : NodeId) (d : EdgeData)
    (a b : NodeId) (hne : ¬ (a = u ∧ b = v)) :
    (g.addEdge u v d).findEdge a b = g.findEdge a b := by
  show ((updEdges g.edges u v d).find? (fun e => decide (e.1 = a ∧ e.2.1 = b))).map
    (fun e => e.2.2) = (g.edges.find? (fun e => decide (e.1 = a ∧ e.2.1 = b))).map
    (fun e => e.2.2)
  unfold updEdges
  split
  · rw [find?_map_overwrite_other g.edges u v d a b hne]
  · rw [List.find?_append]
    have hsingle : ([(u, v, d)] : List (NodeId × NodeId × EdgeData)).find?
        (fun e => decide (e.1 = a ∧ e.2.1 = b)) = none := by
      rw [List.find?_eq_none]
      intro x hx hpx
      obtain hc := of_decide_eq_true hpx
      rcases List.mem_cons.mp hx with rfl | hx2
      · exact hne ⟨hc.1.symm, hc.2.symm⟩
      · exact absurd hx2 (List.not_mem_nil x)
    rw [hsingle, Option.or_none]

/-- Helper: `add_node` does not touch edges. -/
theorem findEdge_addNode (g : DiGraph) (w a b : NodeId) :
    (g.addNode w).findEdge a b = g.findEdge a b := by
  unfold DiGraph.addNode
  split
  · rfl
  · rfl

/-- Helper: a fold of `add_edge` calls all targeting `nid` with one payload
sets exactly the `(source, nid)` lookups for the fold's sources. -/
theorem foldl_addEdge_memId (xs : List MemoryNode) (g : DiGraph)
    (nid q : NodeId) (d : EdgeData) :
    (xs.foldl (fun g r => g.addEdge r.node_id nid d) g).findEdge q nid =
      if q ∈ xs.map (fun r => r.node_id) then some d else g.findEdge q nid := by
  induction xs generalizing g with
  | nil => simp
  | cons r rs ih =>
    rw [List.foldl_cons, ih]
    by_cases hq : q ∈ rs.map (fun r => r.node_id)
    · rw [if_pos hq, if_pos (by
        simp only [List.map_cons]
        exact List.mem_cons_of_mem _ hq)]
    · rw [if_neg hq]
      by_cases hqr : q = r.node_id
      · subst hqr
        rw [findEdge_addEdge_self, if_pos (by
          simp only [List.map_cons]
          exact List.mem_cons_self _ _)]
      · rw [findEdge_addEdge_of_ne _ _ _ _ _ _ (fun hc => hqr hc.1), if_neg (by
          simp only [List.map_cons, List.mem_cons]
          rintro (h | h)
          · exact hqr h
          · exact hq h)]

/-- Helper: the parent-edge loop of `add_memory` (guarded `add_edge` calls
all targeting `nid` with one payload) sets exactly the `(pid, nid)` lookups
for the known parent ids in the list. -/
theorem foldl_condAddEdge (P : List NodeId) (kf : NodeId → Bool) (g : DiGraph)
    (nid q : NodeId) (d : EdgeData) :
    (P.foldl (fun g pid => if kf pid = true then g.addEdge pid nid d else g)
      g).findEdge q nid =
      if q ∈ P ∧ kf q = true then some d else g.findEdge q nid := by
  induction P generalizing g with
  | nil => simp
  | cons p ps ih =>
    rw [List.foldl_cons, ih]
    by_cases hq : q ∈ ps ∧ kf q = true
    · rw [if_pos hq, if_pos ⟨List.mem_cons_of_mem _ hq.1, hq.2⟩]
    · rw [if_neg hq]
      by_cases hqp : q = p
      · subst hqp
        by_cases hk : kf q = true
        · rw [if_pos hk, findEdge_addEdge_self,
            if_pos ⟨List.mem_cons_self _ _, hk⟩]
        · rw [if_neg hk, if_neg (fun hc => hk hc.2)]
      · by_cases hk : kf p = true
        · rw [if_pos hk, findEdge_addEdge_of_ne _ _ _ _ _ _ (fun hc => hqp hc.1),
            if_neg (by
              rintro ⟨hmem, hkq⟩
              rcases List.mem_cons.mp hmem with rfl | hmem2
              · exact hqp rfl
              · exact hq ⟨hmem2, hkq⟩)]
        · rw [if_neg hk, if_neg (by
            rintro ⟨hmem, hkq⟩
            rcases List.mem_cons.mp hmem with rfl | hmem2
            · exact hk hkq
            · exact hq ⟨hmem2, hkq⟩)]

/-- Helper: the graph after `_create_temporal_edges` resolves an incoming
edge of the new node to the temporal payload for the loop's sources and to
the prior graph's answer otherwise. -/
theorem createTemporalEdges_findEdge (nodes : List (NodeId × MemoryNode))
    (g : DiGraph) (nid : NodeId) (lookback : ℕ) (q : NodeId) :
    (createTemporalEdges nodes g nid lookback).findEdge q nid =
      if q ∈ (temporalSources nodes nid lookback).map (fun r => r.node_id) then
        some ⟨"temporal", 1/2⟩
      else g.findEdge q nid :=
  foldl_addEdge_memId _ g nid q _

/-- Helper: every temporal-edge source is a stored node value. -/
theorem temporalSources_mem (nodes : List (NodeId × MemoryNode)) (nid : NodeId)
    (lookback : ℕ) (r : MemoryNode) (hr : r ∈ temporalSources nodes nid lookback) :
    r ∈ nodes.map Prod.snd := by
  rw [temporalSources] at hr
  split at hr
  · exact absurd hr (List.not_mem_nil r)
  · exact List.mem_mergeSort.mp
      (List.mem_of_mem_drop (List.mem_of_mem_take (List.mem_of_mem_filter hr)))

/-- C9 amended: a valid insert succeeds for any `parent_node_ids` list;
unknown parent ids are silently skipped (no edge is created for them), and
a known parent id ends with the causal strength-0.8 edge to the new node
exactly when it is not among the temporal lookback sources — for parents
among the sources (e.g. any parent when fewer than six nodes exist), the
temporal-edge step overwrites the causal edge with `("temporal", 0.5)`. -/
theorem unknown_parents_skipped_known_parents_linked
    (s : NGM) (now : ℚ) (c : String) (e : List ℚ) (m : String) (v imp : ℚ)
    (P : List NodeId)
    (himp : 0 ≤ imp ∧ imp ≤ 1)
    (hdim : e.length = s.embedding_dim)
    (hcap : s.nodes.length < s.memory_capacity)
    (hwf : ∀ p ∈ s.nodes, p.2.node_id = p.1)
    (hfreshk : ∀ p ∈ s.nodes, p.1 ≠ (⟨s.nodes.length, now⟩ : NodeId))
    (hfreshe : ∀ ed ∈ s.graph.edges, ed.2.1 ≠ (⟨s.nodes.length, now⟩ : NodeId)) :
    (addMemory s now c e m v imp P).isOk = true ∧
    (∀ pid : NodeId, (¬ ∃ p ∈ s.nodes, p.1 = pid) →
      pid ≠ (⟨s.nodes.length, now⟩ : NodeId) →
      ((addMemory s now c e m v imp P).stateOf).graph.findEdge pid
        ⟨s.nodes.length, now⟩ = none) ∧
    (∀ pid ∈ P, (∃ p ∈ s.nodes, p.1 = pid) →
      pid ∉ (temporalSources
        (dictSet s.nodes ⟨s.nodes.length, now⟩
          ⟨⟨s.nodes.length, now⟩, now, c, e, m, v, imp, 0⟩)
        ⟨s.nodes.length, now⟩ 5).map (fun r => r.node_id) →
      ((addMemory s now c e m v imp P).stateOf).graph.findEdge pid
        ⟨s.nodes.length, now⟩ = some ⟨"causal", 4/5⟩) ∧
    (∀ pid ∈ (temporalSources
        (dictSet s.nodes ⟨s.nodes.length, now⟩
          ⟨⟨s.nodes.length, now⟩, now, c, e, m, v, imp, 0⟩)
        ⟨s.nodes.length, now⟩ 5).map (fun r => r.node_id),
      ((addMemory s now c e m v imp P).stateOf).graph.findEdge pid
        ⟨s.nodes.length, now⟩ = some ⟨"temporal", 1/2⟩) := by
  have hanyf : (s.nodes.any (fun p => p.1 = (⟨s.nodes.length, now⟩ : NodeId))) = false := by
    rw [List.any_eq_false]
    intro p hp hc
    exact hfreshk p hp (of_decide_eq_true hc)
  have hN : dictSet s.nodes ⟨s.nodes.length, now⟩
      ⟨⟨s.nodes.length, now⟩, now, c, e, m, v, imp, 0⟩ =
      s.nodes ++ [(⟨s.nodes.length, now⟩,
        ⟨⟨s.nodes.length, now⟩, now, c, e, m, v, imp, 0⟩)] := by
    unfold dictSet
    rw [if_neg (by rw [hanyf]; exact Bool.false_ne_true)]
  have hcond : ¬ ((dictSet s.nodes ⟨s.nodes.length, now⟩
      ⟨⟨s.nodes.length, now⟩, now, c, e, m, v, imp, 0⟩).length >
      s.memory_capacity) := by
    rw [hN, List.length_append]
    simp only [List.length_cons, List.length_nil]
    omega
  have hnone : ∀ pid : NodeId,
      s.graph.findEdge pid ⟨s.nodes.length, now⟩ = none := by
    intro pid
    show (s.graph.edges.find?
      (fun ed => decide (ed.1 = pid ∧ ed.2.1 = (⟨s.nodes.length, now⟩ : NodeId)))).map
      (fun ed => ed.2.2) = none
    rw [List.find?_eq_none.mpr]
    · rfl
    · intro x hx hpx
      exact hfreshe x hx (of_decide_eq_true hpx).2
  simp only [addMemory, if_neg (not_not_intro himp), if_neg (not_not_intro hdim),
    PyResult.isOk, PyResult.stateOf, if_neg hcond]
  rw [hN]
  refine ⟨trivial, ?_, ?_, ?_⟩
  · intro pid hunk hne
    have hnsrc : pid ∉ (temporalSources
        (s.nodes ++ [((⟨s.nodes.length, now⟩ : NodeId),
          (⟨⟨s.nodes.length, now⟩, now, c, e, m, v, imp, 0⟩ : MemoryNode))])
        ⟨s.nodes.length, now⟩ 5).map (fun r => r.node_id) := by
      intro hmem
      obtain ⟨r, hr, hrid⟩ := List.mem_map.mp hmem
      have hrv := temporalSources_mem _ _ _ r hr
      rw [List.map_append] at hrv
      rcases List.mem_append.mp hrv with hl | hr2
      · obtain ⟨p, hp, hpe⟩ := List.mem_map.mp hl
        exact hunk ⟨p, hp, by rw [← hwf p hp, hpe, hrid]⟩
      · simp only [List.map_cons, List.map_nil, List.mem_singleton] at hr2
        exact hne (by rw [← hrid, hr2])
    have hnand : ¬ (pid ∈ P ∧
        ((s.nodes ++ [((⟨s.nodes.length, now⟩ : NodeId),
          (⟨⟨s.nodes.length, now⟩, now, c, e, m, v, imp, 0⟩ : MemoryNode))]).any
          (fun p => p.1 = pid)) = true) := by
      rintro ⟨hmem, hany⟩
      rw [List.any_append, Bool.or_eq_true] at hany
      rcases hany with h1 | h1
      · obtain ⟨p, hp, hpe⟩ := List.any_eq_true.mp h1
        exact hunk ⟨p, hp, of_decide_eq_true hpe⟩
      · simp only [List.any_cons, List.any_nil, Bool.or_false] at h1
        exact hne (of_decide_eq_true h1).symm
    rw [createTemporalEdges_findEdge, if_neg hnsrc, foldl_condAddEdge,
      if_neg hnand, findEdge_addNode, hnone pid]
  · intro pid hP hknown hnsrc
    have hany : ((s.nodes ++ [((⟨s.nodes.length, now⟩ : NodeId),
        (⟨⟨s.nodes.length, now⟩, now, c, e, m, v, imp, 0⟩ : MemoryNode))]).any
        (fun p => p.1 = pid)) = true := by
      rw [List.any_append, Bool.or_eq_true]
      left
      obtain ⟨p, hp, hpe⟩ := hknown
      exact List.any_eq_true.mpr ⟨p, hp, decide_eq_true hpe⟩
    rw [createTemporalEdges_findEdge, if_neg hnsrc, foldl_condAddEdge,
      if_pos ⟨hP, hany⟩]
  · intro pid hsrc
    rw [createTemporalEdges_findEdge, if_pos hsrc]

/-- Seven nodes (timestamps 1–7) in a fresh instance. -/
def sevenNodeState : NGM :=
  (insertRun (initNGM 1 100 1)
    [(1, [0], 1/2), (2, [0], 1/2), (3, [0], 1/2), (4, [0], 1/2),
     (5, [0], 1/2), (6, [0], 1/2), (7, [0], 1/2)]).1

/-- Witness for `unknown_parents_skipped_known_parents_linked`: inserting a
child (clock 8) with parents `[⟨0,1⟩, ⟨9,9⟩]` into the seven-node state —
`⟨0,1⟩` is known and older than the five-node lookback window, `⟨9,9⟩` is
unknown — yields a causal edge from `⟨0,1⟩` and no edge from `⟨9,9⟩`. -/
theorem unknown_parents_skipped_witness :
    ((addMemory sevenNodeState 8 "c" [0] "text" 0 (1/2)
      [⟨0, 1⟩, ⟨9, 9⟩]).stateOf).graph.findEdge ⟨0, 1⟩ ⟨7, 8⟩ =
        some ⟨"causal", 4/5⟩ ∧
    ((addMemory sevenNodeState 8 "c" [0] "text" 0 (1/2)
      [⟨0, 1⟩, ⟨9, 9⟩]).stateOf).graph.findEdge ⟨9, 9⟩ ⟨7, 8⟩ = none := by
  have h := unknown_parents_skipped_known_parents_linked sevenNodeState 8 "c" [0]
    "text" 0 (1/2) [⟨0, 1⟩, ⟨9, 9⟩] (by decide) (by decide) (by decide)
    (by decide) (by decide) (by decide)
  exact ⟨h.2.2.1 ⟨0, 1⟩ (by decide) (by decide) (by decide),
    h.2.1 ⟨9, 9⟩ (by decide) (by decide)⟩

/-- Helper: the descending-timestamp sort is a permutation. -/
theorem sortByTsDesc_perm (l : List MemoryNode) : (sortByTsDesc l).Perm l :=
  List.mergeSort_perm l _

/-- Helper: the descending-timestamp sort is sorted (non-strictly)
downward. -/
theorem sortByTsDesc_pairwise (l : List MemoryNode) :
    (sortByTsDesc l).Pairwise (fun a b => b.timestamp ≤ a.timestamp) := by
  have h := @List.sorted_mergeSort MemoryNode
    (fun a b => decide (b.timestamp ≤ a.timestamp))
    (fun a b c hab hbc => by
      simp only [decide_eq_true_eq] at hab hbc ⊢
      exact le_trans hbc hab)
    (fun a b => by
      simp only [Bool.or_eq_true, decide_eq_true_eq]
      exact le_total b.timestamp a.timestamp)
    l
  exact h.imp (fun hab => by simpa using hab)

/-- Helper: when one element strictly dominates all others by timestamp,
the descending sort starts with it, followed by a sorted permutation of the
others. -/
theorem sortByTsDesc_max_head (vals : List MemoryNode) (nd : MemoryNode)
    (others : List MemoryNode) (hperm : vals.Perm (nd :: others))
    (hfresh : ∀ o ∈ others, o.timestamp < nd.timestamp) :
    ∃ rest, sortByTsDesc vals = nd :: rest ∧ rest.Perm others ∧
      rest.Pairwise (fun a b => b.timestamp ≤ a.timestamp) := by
  have hp : (sortByTsDesc vals).Perm (nd :: others) :=
    (sortByTsDesc_perm vals).trans hperm
  have hpw := sortByTsDesc_pairwise vals
  cases hsd : sortByTsDesc vals with
  | nil =>
    rw [hsd] at hp
    exact absurd hp.symm.length_eq (by simp)
  | cons hhd t =>
    rw [hsd] at hp hpw
    have hmemh : hhd ∈ nd :: others := hp.subset (List.mem_cons_self _ _)
    have hnd : nd ∈ hhd :: t := hp.symm.subset (List.mem_cons_self _ _)
    have hh : hhd = nd := by
      rcases List.mem_cons.mp hmemh with h | hmem
      · exact h
      · exfalso
        have hlt := hfresh hhd hmem
        rcases List.mem_cons.mp hnd with heq | hmemt
        · rw [heq] at hlt
          exact lt_irrefl _ hlt
        · have hle := (List.pairwise_cons.mp hpw).1 nd hmemt
          exact absurd hlt (not_lt_of_le hle)
    subst hh
    exact ⟨t, rfl, hp.cons_inv, (List.pairwise_cons.mp hpw).2⟩

/-- Helper: characterisation of the temporal-edge sources when the new
node (key `nid`, record `nd`) carries the strictly greatest timestamp and
the prior nodes' timestamps are pairwise distinct: the sources are
`min lookback n` of the prior nodes, every non-source prior node is older
than every source, and each source receives the strength-0.5 temporal edge
into `nid`. -/
theorem temporalSourcesRule
    (pre post : List (NodeId × MemoryNode)) (nid : NodeId) (nd : MemoryNode)
    (g : DiGraph) (lookback : ℕ)
    (hwf : ∀ p ∈ pre ++ (nid, nd) :: post, p.2.node_id = p.1)
    (hne : ∀ p ∈ pre ++ post, p.1 ≠ nid)
    (hfresh : ∀ o ∈ (pre ++ post).map Prod.snd, o.timestamp < nd.timestamp)
    (hdist : ((pre ++ post).map Prod.snd).Pairwise
      (fun a b => a.timestamp ≠ b.timestamp)) :
    (temporalSources (pre ++ (nid, nd) :: post) nid lookback).length =
      min lookback ((pre ++ post).map Prod.snd).length ∧
    (∀ r ∈ temporalSources (pre ++ (nid, nd) :: post) nid lookback,
      r ∈ (pre ++ post).map Prod.snd) ∧
    (∀ r ∈ temporalSources (pre ++ (nid, nd) :: post) nid lookback,
      ∀ o ∈ (pre ++ post).map Prod.snd,
        o ∉ temporalSources (pre ++ (nid, nd) :: post) nid lookback →
        o.timestamp < r.timestamp) ∧
    (∀ r ∈ temporalSources (pre ++ (nid, nd) :: post) nid lookback,
      (createTemporalEdges (pre ++ (nid, nd) :: post) g nid lookback).findEdge
        r.node_id nid = some ⟨"temporal", 1/2⟩) := by
  have hvals : ((pre ++ (nid, nd) :: post).map Prod.snd).Perm
      (nd :: (pre ++ post).map Prod.snd) := by
    rw [List.map_append, List.map_cons, List.map_append]
    exact List.perm_middle
  by_cases hemp : pre ++ post = []
  · obtain ⟨h1, h2⟩ := List.append_eq_nil.mp hemp
    subst h1
    subst h2
    have hS : temporalSources [(nid, nd)] nid lookback = [] := by
      rw [temporalSources, if_pos (by simp)]
    refine ⟨by simp [hS], ?_, ?_, ?_⟩ <;>
      (intro r hr; simp only [List.nil_append] at hr; rw [hS] at hr;
        exact absurd hr (List.not_mem_nil r))
  · have hlen2 : ¬ ((pre ++ (nid, nd) :: post).length ≤ 1) := by
      have hp0 := List.length_pos.mpr hemp
      rw [List.length_append] at hp0
      rw [List.length_append, List.length_cons]
      omega
    obtain ⟨rest, hsd, hrperm, hrpw⟩ := sortByTsDesc_max_head _ nd _ hvals hfresh
    have hfilter : ((rest.take lookback).filter
        (fun r => decide (r.node_id ≠ nid))) = rest.take lookback := by
      apply List.filter_eq_self.mpr
      intro r hr
      have hro : r ∈ (pre ++ post).map Prod.snd :=
        hrperm.subset (List.mem_of_mem_take hr)
      obtain ⟨p, hp, hpe⟩ := List.mem_map.mp hro
      have hpmem : p ∈ pre ++ (nid, nd) :: post := by
        rcases List.mem_append.mp hp with h | h
        · exact List.mem_append_left _ h
        · exact List.mem_append_right _ (List.mem_cons_of_mem _ h)
      simp only [decide_eq_true_eq]
      rw [← hpe, hwf p hpmem]
      exact hne p hp
    have hS : temporalSources (pre ++ (nid, nd) :: post) nid lookback =
        rest.take lookback := by
      rw [temporalSources, if_neg hlen2, hsd]
      simp only [List.drop_succ_cons, List.drop_zero]
      exact hfilter
    have hodup : ((pre ++ post).map Prod.snd).Nodup :=
      hdist.imp (fun hts he => hts (by rw [he]))
    have hrdup : rest.Nodup := hrperm.nodup_iff.mpr hodup
    have hsplit := List.take_append_drop lookback rest
    refine ⟨?_, ?_, ?_, ?_⟩
    · rw [hS, List.length_take, hrperm.length_eq]
    · intro r hr
      rw [hS] at hr
      exact hrperm.subset (List.mem_of_mem_take hr)
    · intro r hr o ho hno
      rw [hS] at hr hno
      have hor : o ∈ rest := hrperm.mem_iff.mpr ho
      have hod : o ∈ rest.drop lookback := by
        rcases List.mem_append.mp (by rw [hsplit]; exact hor) with h | h
        · exact absurd h hno
        · exact h
      have hpw2 : (List.take lookback rest ++ List.drop lookback rest).Pairwise
          (fun a b => b.timestamp ≤ a.timestamp) := by
        rw [hsplit]
        exact hrpw
      have hnd2 : (List.take lookback rest ++ List.drop lookback rest).Nodup := by
        rw [hsplit]
        exact hrdup
      have hle : o.timestamp ≤ r.timestamp :=
        (List.pairwise_append.mp hpw2).2.2 r hr o hod
      have hone : o ≠ r := by
        intro he
        exact (List.nodup_append.mp hnd2).2.2 hr (he ▸ hod)
      have hro : r ∈ (pre ++ post).map Prod.snd :=
        hrperm.subset (List.mem_of_mem_take hr)
      have hsym : Symmetric (fun a b : MemoryNode => a.timestamp ≠ b.timestamp) :=
        fun a b hab => hab.symm
      have hts : o.timestamp ≠ r.timestamp :=
        List.Pairwise.forall hsym hdist ho hro hone
      exact lt_of_le_of_ne hle hts
    · intro r hr
      rw [createTemporalEdges_findEdge,
        if_pos (List.mem_map_of_mem (fun r => r.node_id) hr)]

/-- C7: (a) inserting three nodes (timestamps 1, 2, 3) into an empty store
with no parents and the default lookback 5 ≥ 2 produces exactly the
temporal edge set a→b, b→c, a→c, each of strength 0.5; (b) in general,
when the new node carries the strictly greatest timestamp and prior
timestamps are distinct, the temporal-edge step links the
`min lookback n` most recently created other live nodes (every non-source
prior node being strictly older than every source) to the new node with
strength-0.5 temporal edges. -/
theorem temporal_edges_spec :
    ((insertRun (initNGM 1 100 1) [(1, [0], 1/2), (2, [0], 1/2), (3, [0], 1/2)]).2
        = true ∧
      (insertRun (initNGM 1 100 1)
        [(1, [0], 1/2), (2, [0], 1/2), (3, [0], 1/2)]).1.graph.edges =
        [(⟨0, 1⟩, ⟨1, 2⟩, ⟨"temporal", 1/2⟩),
         (⟨1, 2⟩, ⟨2, 3⟩, ⟨"temporal", 1/2⟩),
         (⟨0, 1⟩, ⟨2, 3⟩, ⟨"temporal", 1/2⟩)]) ∧
    (∀ (pre post : List (NodeId × MemoryNode)) (nid : NodeId) (nd : MemoryNode)
      (g : DiGraph) (lookback : ℕ),
      (∀ p ∈ pre ++ (nid, nd) :: post, p.2.node_id = p.1) →
      (∀ p ∈ pre ++ post, p.1 ≠ nid) →
      (∀ o ∈ (pre ++ post).map Prod.snd, o.timestamp < nd.timestamp) →
      ((pre ++ post).map Prod.snd).Pairwise
        (fun a b => a.timestamp ≠ b.timestamp) →
      (temporalSources (pre ++ (nid, nd) :: post) nid lookback).length =
        min lookback ((pre ++ post).map Prod.snd).length ∧
      (∀ r ∈ temporalSources (pre ++ (nid, nd) :: post) nid lookback,
        r ∈ (pre ++ post).map Prod.snd) ∧
      (∀ r ∈ temporalSources (pre ++ (nid, nd) :: post) nid lookback,
        ∀ o ∈ (pre ++ post).map Prod.snd,
          o ∉ temporalSources (pre ++ (nid, nd) :: post) nid lookback →
          o.timestamp < r.timestamp) ∧
      (∀ r ∈ temporalSources (pre ++ (nid, nd) :: post) nid lookback,
        (createTemporalEdges (pre ++ (nid, nd) :: post) g nid lookback).findEdge
          r.node_id nid = some ⟨"temporal", 1/2⟩)) :=
  ⟨by decide, fun pre post nid nd g lookback hwf hne hfresh hdist =>
    temporalSourcesRule pre post nid nd g lookback hwf hne hfresh hdist⟩

/-- Witness for `temporal_edges_spec`: applying the general rule to two
prior nodes (timestamps 1 and 2) and the new node `⟨2,3⟩` (timestamp 3)
yields the temporal edge from `⟨1,2⟩` into `⟨2,3⟩`. -/
theorem temporal_edges_spec_witness :
    (createTemporalEdges
      ([(⟨0, 1⟩, ⟨⟨0, 1⟩, 1, "x", [0], "text", 0, 1/2, 0⟩),
        (⟨1, 2⟩, ⟨⟨1, 2⟩, 2, "y", [0], "text", 0, 1/2, 0⟩)] ++
        (⟨2, 3⟩, ⟨⟨2, 3⟩, 3, "z", [0], "text", 0, 1/2, 0⟩) :: [])
      ⟨[], []⟩ ⟨2, 3⟩ 5).findEdge ⟨1, 2⟩ ⟨2, 3⟩ = some ⟨"temporal", 1/2⟩ :=
  (temporal_edges_spec.2
    [(⟨0, 1⟩, ⟨⟨0, 1⟩, 1, "x", [0], "text", 0, 1/2, 0⟩),
     (⟨1, 2⟩, ⟨⟨1, 2⟩, 2, "y", [0], "text", 0, 1/2, 0⟩)] []
    ⟨2, 3⟩ ⟨⟨2, 3⟩, 3, "z", [0], "text", 0, 1/2, 0⟩ ⟨[], []⟩ 5
    (by decide) (by decide) (by decide) (by decide)).2.2.2
    ⟨⟨1, 2⟩, 2, "y", [0], "text", 0, 1/2, 0⟩ (by decide)
